import Mathlib

/-!
Shallow embedding of the simpiwallet signing and transaction-construction
core (src/descriptor.rs, src/state.rs, src/spend.rs), together with proofs
of the spec claims about it.

Modelling conventions:
* machine integers (u32, u64 satoshi amounts) become `Nat`, with explicit
  `% 2 ^ w` where overflow matters;
* the external `simplicity` library's commitment Merkle root (CMR) of a
  policy is abstracted as a parameter `cmrOf : SimPolicy Pk → Cmr`;
* external secp256k1 key arithmetic is abstracted as a small algebra of
  secret keys, public keys and negation, with the laws the code's own
  comments rely on stated as hypotheses;
* fallible Rust code returning `Option`/`Result` becomes `Option`/`Except`.
-/

namespace SimpiWallet

/-- Commitment Merkle root of a Simplicity program (an opaque 32-byte
value), modelled abstractly as a natural number. -/
abbrev Cmr := Nat

/-- Simplicity policies that this wallet puts into Taproot leaves:
`Policy::Key(pk)` for keyed outputs and `Policy::Assembly(cmr)` for opaque
program outputs (src/descriptor.rs). -/
inductive SimPolicy (Pk : Type) where
  | key : Pk → SimPolicy Pk
  | assembly : Cmr → SimPolicy Pk
deriving DecidableEq, Repr

/-- Taproot script trees as this wallet distinguishes them: a single
Simplicity leaf, or any other tree shape (`TapTree` in elements-miniscript;
the non-Simplicity shapes are collapsed because the code treats them all
alike). -/
inductive TapTree (Pk : Type) where
  | simplicityLeaf : SimPolicy Pk → TapTree Pk
  | other : TapTree Pk
deriving DecidableEq, Repr

/-- Payload of a `Descriptor::Tr`: internal key and optional script tree. -/
structure TrDescriptor (Pk : Type) where
  internalKey : Pk
  taptree : Option (TapTree Pk)
deriving DecidableEq, Repr

/-- Output descriptors as the wallet distinguishes them: a Taproot
descriptor, or any non-Taproot descriptor (collapsed to one shape because
`get_cmr` and `get_taproot_info` treat them all alike). -/
inductive Descriptor (Pk : Type) where
  | tr : TrDescriptor Pk → Descriptor Pk
  | other : Descriptor Pk
deriving DecidableEq, Repr

/-- Embedding of `simplicity_pk` (src/descriptor.rs lines 17-22): a Taproot
descriptor whose internal key is the fixed unspendable key and whose tree
is a single Simplicity leaf committing to `Policy::Key(key)`. The
`unspendable` constant (`Pk::unspendable()`) is passed explicitly. -/
def simplicity_pk {Pk : Type} (unspendable : Pk) (key : Pk) : Descriptor Pk :=
  Descriptor.tr ⟨unspendable, some (TapTree.simplicityLeaf (SimPolicy.key key))⟩

/-- Embedding of `simplicity_asm` (src/descriptor.rs lines 24-29): a
Taproot descriptor with the unspendable internal key and a single
Simplicity leaf committing to `Policy::Assembly(cmr)`. -/
def simplicity_asm {Pk : Type} (unspendable : Pk) (cmr : Cmr) : Descriptor Pk :=
  Descriptor.tr ⟨unspendable, some (TapTree.simplicityLeaf (SimPolicy.assembly cmr))⟩

/-- Embedding of `get_cmr` (src/descriptor.rs lines 31-39): returns the
CMR of the Simplicity leaf policy of a Taproot descriptor, `none` in every
other case. `cmrOf` abstracts the library call `policy.cmr()`. -/
def get_cmr {Pk : Type} (cmrOf : SimPolicy Pk → Cmr) : Descriptor Pk → Option Cmr
  | Descriptor.tr tr =>
    match tr.taptree with
    | some (TapTree.simplicityLeaf policy) => some (cmrOf policy)
    | _ => none
  | Descriptor.other => none

/-- Embedding of `get_taproot_info` (src/spend.rs lines 254-276): for a
Taproot descriptor with a Simplicity leaf, the leaf CMR (the control block,
produced by the external taproot spend-info machinery and guaranteed to
exist for a known leaf, is not modelled); `none` otherwise. -/
def get_taproot_info {Pk : Type} (cmrOf : SimPolicy Pk → Cmr) :
    Descriptor Pk → Option Cmr
  | Descriptor.tr tr =>
    match tr.taptree with
    | some (TapTree.simplicityLeaf policy) => some (cmrOf policy)
    | _ => none
  | Descriptor.other => none

/-- Unspent transaction output as scanned by the wallet (src/state.rs
`Utxo`): its amount in satoshi, plus an opaque identity standing for the
descriptor and outpoint fields, which `select_coins` copies but never
reads. -/
structure Utxo where
  amount : Nat
  outpoint : Nat
deriving DecidableEq, Repr

/-- Embedding of `UtxoSet` (src/state.rs line 186): a list of UTXOs in
scan-result order. -/
abbrev UtxoSet := List Utxo

/-- Embedding of `UtxoSet::total_amount` (src/spend.rs lines 111-113). -/
def total_amount (s : UtxoSet) : Nat :=
  (s.map Utxo.amount).sum

/-- The accumulation loop of `UtxoSet::select_coins` (src/spend.rs lines
95-102): walk the UTXOs in order; at each step, stop if the accumulated
amount already reaches the target, otherwise take the UTXO and add its
amount. -/
def selectLoop (target : Nat) : List Utxo → List Utxo → Nat → List Utxo × Nat
  | [], sel, acc => (sel, acc)
  | u :: rest, sel, acc =>
    if target ≤ acc then (sel, acc)
    else selectLoop target rest (sel ++ [u]) (acc + u.amount)

/-- Embedding of `UtxoSet::select_coins` (src/spend.rs lines 91-109):
first-fit accumulation in presented order, `none` when the accumulated
amount never reaches the target. -/
def select_coins (s : UtxoSet) (target : Nat) : Option (UtxoSet × Nat) :=
  let p := selectLoop target s [] 0
  if p.2 < target then none else some p

/-! ### AssemblySet (src/descriptor.rs lines 74-120)

The satisfactions `HashMap<Cmr, SerdeWitnessNode>` is modelled as an
association list with `HashMap::insert` semantics (replace the value of an
existing key, keep everything else). Finalized witness programs
(`RedeemNode`) are abstracted as an arbitrary type `W`. -/

/-- Lookup in an association list, modelling `HashMap::get`. -/
def assocLookup {W : Type} (k : Cmr) : List (Cmr × W) → Option W
  | [] => none
  | (k0, v0) :: rest => if k0 = k then some v0 else assocLookup k rest

/-- Insertion into an association list, modelling `HashMap::insert`:
replaces the value stored under an existing key, otherwise appends. -/
def assocInsert {W : Type} (k : Cmr) (v : W) : List (Cmr × W) → List (Cmr × W)
  | [] => [(k, v)]
  | (k0, v0) :: rest =>
    if k0 = k then (k, v) :: rest else (k0, v0) :: assocInsert k v rest

/-- Embedding of `AssemblySet` (src/descriptor.rs lines 74-78): the
registered opaque-program descriptors plus the finalized satisfaction
witnesses keyed by CMR. -/
structure AssemblySet (Pk W : Type) where
  descriptors : List (Descriptor Pk)
  satisfactions : List (Cmr × W)
deriving DecidableEq, Repr

namespace AssemblySet

/-- Embedding of `AssemblySet::iter` (src/descriptor.rs lines 81-83): the
CMRs of all registered descriptors, skipping descriptors without a
Simplicity leaf. -/
def cmrs {Pk W : Type} (cmrOf : SimPolicy Pk → Cmr) (A : AssemblySet Pk W) :
    List Cmr :=
  A.descriptors.filterMap (get_cmr cmrOf)

/-- Embedding of `AssemblySet::contains` (src/descriptor.rs lines 85-87). -/
def contains {Pk W : Type} (cmrOf : SimPolicy Pk → Cmr) (A : AssemblySet Pk W)
    (cmr : Cmr) : Bool :=
  (A.cmrs cmrOf).any (fun c => c = cmr)

/-- Embedding of `AssemblySet::insert` (src/descriptor.rs lines 89-96):
returns the flag the method returns together with the updated set. -/
def insert {Pk W : Type} (cmrOf : SimPolicy Pk → Cmr) (unspendable : Pk)
    (A : AssemblySet Pk W) (cmr : Cmr) : Bool × AssemblySet Pk W :=
  if A.contains cmrOf cmr then (false, A)
  else (true, { A with descriptors := A.descriptors ++ [simplicity_asm unspendable cmr] })

/-- Embedding of `AssemblySet::insert_satisfaction` (src/descriptor.rs
lines 110-119). The library calls are abstracted: `fin` models
`WitnessNode::finalize` and `wcmr` models `WitnessNode::cmr`. The updated
set is returned alongside the result; on the error path the set is the
input set, matching the early return of the `?` operator. -/
def insert_satisfaction {Pk W P E : Type} (fin : P → Except E W) (wcmr : P → Cmr)
    (A : AssemblySet Pk W) (program : P) :
    AssemblySet Pk W × Except E (Option W) :=
  match fin program with
  | Except.error e => (A, Except.error e)
  | Except.ok finalized =>
    let maybeReplaced := assocLookup (wcmr program) A.satisfactions
    ({ A with satisfactions := assocInsert (wcmr program) finalized A.satisfactions },
     Except.ok maybeReplaced)

end AssemblySet

/-! ### Wallet state (src/state.rs) -/

/-- Embedding of `State::next_index` (src/state.rs lines 50-60) acting on
the `next_index : u32` cursor alone (the only field it touches). Returns
the `Result` together with the updated cursor; the error carries the
cursor value, modelling `Error::Bip32(InvalidChildNumber(cursor))`. The
successful increment is reduced modulo `2 ^ 32` exactly as u32 addition
would be. -/
def next_index (cursor : Nat) : Except Nat Nat × Nat :=
  if cursor &&& 2 ^ 31 = 0 then
    (Except.ok cursor, (cursor + 1) % 2 ^ 32)
  else
    (Except.error cursor, cursor)

/-! ### Key lookup (src/state.rs lines 82-113)

The secp256k1 key arithmetic is external; it is abstracted as a model with
secret keys `S`, public keys `P`, the secret-to-public map, and negation
on both sides. The laws the code's own comment relies on (`P = xG` and
`-P = (-x)G`) enter the theorems as hypotheses. -/

/-- Abstraction of the secp256k1 operations used by `State::get_keypair`:
`pubkeyOf` models `SecretKey::public_key`, `negS` models
`SecretKey::negate`, and `negP` models point negation. -/
structure KeyModel (S P : Type) where
  pubkeyOf : S → P
  negS : S → S
  negP : P → P

/-- Embedding of the loop body of `State::get_keypair` (src/state.rs lines
85-109) over an explicit list of derivation indices. `derive` models
`parent_sk.at_derivation_index(index).ok().map(to_private_key)`; a failed
derivation aborts the whole lookup with `none`, exactly like the code's
`.ok()?`. The returned keypair is identified with its secret key. -/
def get_keypair_scan {S P : Type} [DecidableEq P] (M : KeyModel S P)
    (derive : Nat → Option S) (key : P) : List Nat → Option S
  | [] => none
  | i :: rest =>
    match derive i with
    | none => none
    | some childSk =>
      if M.pubkeyOf childSk = key then some childSk
      else if M.pubkeyOf (M.negS childSk) = key then some (M.negS childSk)
      else get_keypair_scan M derive key rest

/-- Embedding of `State::get_keypair` (src/state.rs lines 82-113) for the
wallet's single root key (the keymap holds exactly one entry, inserted by
`State::new`): scan derivation indices `0 .. nextIndex`. -/
def get_keypair {S P : Type} [DecidableEq P] (M : KeyModel S P)
    (derive : Nat → Option S) (nextIndex : Nat) (key : P) : Option S :=
  get_keypair_scan M derive key (List.range nextIndex)

/-! ### Witness text encoding (src/descriptor.rs lines 139-157)

`Display for SerdeWitnessNode` base64-encodes (standard alphabet, padded)
the binary encoding of the finalized program; `FromStr` base64-decodes and
re-parses the binary form. The base64 engine
(`base64::engine::general_purpose::STANDARD`) is modelled concretely below;
the Simplicity binary codec (`RedeemNode::encode_to_vec` /
`RedeemNode::decode`) is external and abstracted as a `BinCodec`. Byte
strings are lists of naturals below 256; text is a list of characters. -/

/-- Character of the standard base64 alphabet at index `n` (for n below 64). -/
def b64Char (n : Nat) : Char :=
  if n < 26 then Char.ofNat (65 + n)
  else if n < 52 then Char.ofNat (97 + (n - 26))
  else if n < 62 then Char.ofNat (48 + (n - 52))
  else if n = 62 then Char.ofNat 43
  else Char.ofNat 47

/-- Index of a character in the standard base64 alphabet, `none` for
characters outside the alphabet (including the padding character). -/
def charToSextet (c : Char) : Option Nat :=
  if 65 ≤ c.toNat ∧ c.toNat ≤ 90 then some (c.toNat - 65)
  else if 97 ≤ c.toNat ∧ c.toNat ≤ 122 then some (c.toNat - 97 + 26)
  else if 48 ≤ c.toNat ∧ c.toNat ≤ 57 then some (c.toNat - 48 + 52)
  else if c.toNat = 43 then some 62
  else if c.toNat = 47 then some 63
  else none

/-- Standard padded base64 encoding of a byte string, chunked three bytes
at a time into four output characters. -/
def b64EncodeChunks : List Nat → List Char
  | [] => []
  | [a] => [b64Char (a / 4), b64Char (a % 4 * 16), '=', '=']
  | [a, b] => [b64Char (a / 4), b64Char (a % 4 * 16 + b / 16), b64Char (b % 16 * 4), '=']
  | a :: b :: c :: rest =>
    b64Char (a / 4) :: b64Char (a % 4 * 16 + b / 16) ::
      b64Char (b % 16 * 4 + c / 64) :: b64Char (c % 64) :: b64EncodeChunks rest

/-- Standard padded base64 decoding: groups of four characters, padding
allowed only in the final group, canonical (zero) trailing bits required,
`none` on any malformed input. -/
def b64DecodeGroups : List Char → Option (List Nat)
  | [] => some []
  | c1 :: c2 :: c3 :: c4 :: rest =>
    match charToSextet c1, charToSextet c2 with
    | some s1, some s2 =>
      if rest = [] ∧ c4 = '=' then
        if c3 = '=' then
          if s2 % 16 = 0 then some [s1 * 4 + s2 / 16] else none
        else
          match charToSextet c3 with
          | some s3 =>
            if s3 % 4 = 0 then some [s1 * 4 + s2 / 16, s2 % 16 * 16 + s3 / 4]
            else none
          | none => none
      else
        match charToSextet c3, charToSextet c4, b64DecodeGroups rest with
        | some s3, some s4, some bs =>
          some ((s1 * 4 + s2 / 16) :: (s2 % 16 * 16 + s3 / 4) :: (s3 % 4 * 64 + s4) :: bs)
        | _, _, _ => none
    | _, _ => none
  | _ => none

/-- Abstraction of the external Simplicity binary codec for finalized
witness programs: `encode_to_vec` models `RedeemNode::encode_to_vec`,
`decode` models `RedeemNode::decode` over a bit iterator. -/
structure BinCodec (W E : Type) where
  encode_to_vec : W → List Nat
  decode : List Nat → Except E W

/-- Error type of `SerdeWitnessNode::from_str` (src/descriptor.rs lines
147-157): `Error::CouldNotParse` for a base64 failure, `Error::Simplicity`
for a binary-decode failure. -/
inductive ParseError (E : Type) where
  | couldNotParse : ParseError E
  | simplicity : E → ParseError E
deriving DecidableEq, Repr

/-- Embedding of `Display for SerdeWitnessNode` (src/descriptor.rs lines
139-145): base64 of the binary encoding. -/
def witness_to_text {W E : Type} (C : BinCodec W E) (w : W) : List Char :=
  b64EncodeChunks (C.encode_to_vec w)

/-- Embedding of `FromStr for SerdeWitnessNode` (src/descriptor.rs lines
147-157): base64-decode, then re-parse the binary form. -/
def witness_from_text {W E : Type} (C : BinCodec W E) (s : List Char) :
    Except (ParseError E) W :=
  match b64DecodeGroups s with
  | none => Except.error ParseError.couldNotParse
  | some bytes =>
    match C.decode bytes with
    | Except.error e => Except.error (ParseError.simplicity e)
    | Except.ok w => Except.ok w

/-! ### Transaction builder and signing (src/spend.rs lines 152-251)

Transactions follow the elements `Transaction` fields the builder touches.
Scripts and outpoints are opaque payloads. The per-input satisfaction call
`child_descriptor.get_satisfaction(satisfier).ok()` is external
(elements-miniscript with the `DynamicSigner`); it is abstracted as a
function `satisfy` of the transaction-input index (which fixes the
satisfier's `input_index` and `sequence`) and the child descriptor,
returning the script witness on success. `derive` abstracts
`parent_descriptor.at_derivation_index`. -/

/-- Script witness stack of one transaction input. -/
abbrev ScriptWitness := List (List Nat)

/-- Transaction input (the `elements::TxIn` fields this code reads or
writes: outpoint, script_sig, sequence, witness). -/
structure TxIn where
  previousOutput : Nat
  scriptSig : List Nat
  sequence : Nat
  witness : ScriptWitness
deriving DecidableEq, Repr

/-- Transaction output (the `elements::TxOut` fields this code sets:
asset, value, script_pubkey). -/
structure TxOut where
  asset : Nat
  value : Nat
  scriptPubkey : List Nat
deriving DecidableEq, Repr

/-- Transaction (the `elements::Transaction` fields the builder sets). -/
structure Transaction where
  version : Nat
  lockTime : Nat
  input : List TxIn
  output : List TxOut
deriving DecidableEq, Repr

/-- Embedding of `Input` (src/spend.rs lines 152-157). -/
structure Input where
  index : Nat
  input : TxIn
  prevout : TxOut
deriving DecidableEq, Repr

/-- Embedding of `TransactionBuilder` (src/spend.rs lines 159-165); the
`network` field is carried by the signing parameters instead. -/
structure TransactionBuilder where
  inputs : List TxIn
  descIndices : List Nat
  prevouts : List TxOut
  outputs : List TxOut
deriving DecidableEq, Repr

namespace TransactionBuilder

/-- Embedding of `TransactionBuilder::new` (src/spend.rs lines 168-176). -/
def new : TransactionBuilder :=
  ⟨[], [], [], []⟩

/-- Embedding of `TransactionBuilder::add_input` (src/spend.rs lines
178-182). -/
def add_input (b : TransactionBuilder) (i : Input) : TransactionBuilder :=
  { b with
    inputs := b.inputs ++ [i.input]
    descIndices := b.descIndices ++ [i.index]
    prevouts := b.prevouts ++ [i.prevout] }

/-- Embedding of `TransactionBuilder::add_output` (src/spend.rs lines
184-186). -/
def add_output (b : TransactionBuilder) (o : TxOut) : TransactionBuilder :=
  { b with outputs := b.outputs ++ [o] }

/-- Embedding of `TransactionBuilder::add_fee` (src/spend.rs lines
188-191): `TxOut::new_fee(amount, bitcoin_id)` is an explicit fee output
with an empty script. -/
def add_fee (b : TransactionBuilder) (amount : Nat) (bitcoinId : Nat) :
    TransactionBuilder :=
  { b with outputs := b.outputs ++ [⟨bitcoinId, amount, []⟩] }

/-- Embedding of `TransactionBuilder::to_transaction` (src/spend.rs lines
193-200): version 2, zero locktime, the accumulated inputs and outputs. -/
def to_transaction (b : TransactionBuilder) : Transaction :=
  ⟨2, 0, b.inputs, b.outputs⟩

end TransactionBuilder

/-- The per-input gathering loop of `TransactionBuilder::sign` (src/spend.rs
lines 212-242) over the enumerated descriptor indices: derive the child
descriptor, extract its taproot info (abort with `none` if absent), run the
satisfier (abort with `none` on failure), and collect the produced script
witnesses in input order. -/
def gatherWitnesses {Pk : Type} (cmrOf : SimPolicy Pk → Cmr)
    (derive : Nat → Descriptor Pk)
    (satisfy : Nat → Descriptor Pk → Option ScriptWitness) :
    List (Nat × Nat) → Option (List ScriptWitness)
  | [] => some []
  | (txinIdx, descIdx) :: rest =>
    match get_taproot_info cmrOf (derive descIdx) with
    | none => none
    | some _ =>
      match satisfy txinIdx (derive descIdx) with
      | none => none
      | some w =>
        match gatherWitnesses cmrOf derive satisfy rest with
        | none => none
        | some ws => some (w :: ws)

/-- The second pass of `TransactionBuilder::sign` (src/spend.rs lines
244-248): attach the gathered witness stacks to the inputs, one per input
in order, leaving every other field unchanged. -/
def setWitnesses : List TxIn → List ScriptWitness → List TxIn
  | ins, [] => ins
  | [], _ :: _ => []
  | i :: ins, w :: ws => { i with witness := w } :: setWitnesses ins ws

/-- Embedding of `TransactionBuilder::sign` (src/spend.rs lines 202-251):
assemble the unsigned transaction, gather one script witness per input
(aborting the whole signing operation on any failure), then attach the
witnesses in a second pass. -/
def TransactionBuilder.sign {Pk : Type} (cmrOf : SimPolicy Pk → Cmr)
    (derive : Nat → Descriptor Pk)
    (satisfy : Nat → Descriptor Pk → Option ScriptWitness)
    (b : TransactionBuilder) : Option Transaction :=
  let tx := b.to_transaction
  match gatherWitnesses cmrOf derive satisfy b.descIndices.enum with
  | none => none
  | some ws => some { tx with input := setWitnesses tx.input ws }

/-- Success of the material-gathering for one enumerated input: the child
descriptor has taproot info and the satisfier produces a witness. -/
def inputOk {Pk : Type} (cmrOf : SimPolicy Pk → Cmr)
    (derive : Nat → Descriptor Pk)
    (satisfy : Nat → Descriptor Pk → Option ScriptWitness)
    (p : Nat × Nat) : Prop :=
  (get_taproot_info cmrOf (derive p.2)).isSome = true ∧
    (satisfy p.1 (derive p.2)).isSome = true

instance {Pk : Type} (cmrOf : SimPolicy Pk → Cmr) (derive : Nat → Descriptor Pk)
    (satisfy : Nat → Descriptor Pk → Option ScriptWitness) (p : Nat × Nat) :
    Decidable (inputOk cmrOf derive satisfy p) :=
  inferInstanceAs (Decidable (_ ∧ _))

/-! ### Concrete instantiations used by witness theorems -/

/-- Concrete CMR assignment for witness instantiations over `Pk = Nat`:
an assembly policy's CMR is the committed CMR itself (as the simplicity
library guarantees), and key policies get CMRs shifted away from small
assembly CMRs. -/
def exCmrOf : SimPolicy Nat → Cmr
  | SimPolicy.key k => k + 1000
  | SimPolicy.assembly c => c

/-- Toy key model over the integers for witness instantiations: secret and
public keys are integers, the public key of `x` is `x` itself, and both
negations are integer negation. -/
def intKeyModel : KeyModel Int Int :=
  ⟨fun x => x, fun x => -x, fun x => -x⟩

/-- Toy binary codec for witness instantiations: a program is one byte,
encoded as a singleton byte string. -/
def byteCodec : BinCodec Nat Unit where
  encode_to_vec w := [w % 256]
  decode bs :=
    match bs with
    | [b] => Except.ok b
    | _ => Except.error ()

/-- Concrete UTXO list used by the spec's coin-selection test vector:
amounts 30, 50, 20 in that order. -/
def exUtxos : UtxoSet :=
  [⟨30, 0⟩, ⟨50, 1⟩, ⟨20, 2⟩]

/-- Concrete child-descriptor derivation for witness instantiations:
every index yields a keyed Simplicity descriptor. -/
def exDerive : Nat → Descriptor Nat :=
  fun i => simplicity_pk 100 i

/-- Concrete satisfier for witness instantiations: every input succeeds
with a witness stack naming the input index. -/
def exSatisfy : Nat → Descriptor Nat → Option ScriptWitness :=
  fun i _ => some [[i]]

/-- First example transaction input for witness instantiations. -/
def exInput0 : Input :=
  ⟨0, ⟨11, [], 4294967295, []⟩, ⟨1, 30, [7]⟩⟩

/-- Second example transaction input for witness instantiations. -/
def exInput1 : Input :=
  ⟨1, ⟨12, [], 4294967295, []⟩, ⟨1, 50, [8]⟩⟩

/-- Example builder for witness instantiations: two inputs, one payment
output, one fee output. -/
def exBuilder : TransactionBuilder :=
  (((TransactionBuilder.new.add_input exInput0).add_input exInput1).add_output
      ⟨1, 60, [9]⟩).add_fee 1000 1

/-- The transaction `exBuilder` signs to under `exDerive`/`exSatisfy`. -/
def exSignedTx : Transaction :=
  ⟨2, 0,
   [⟨11, [], 4294967295, [[0]]⟩, ⟨12, [], 4294967295, [[1]]⟩],
   [⟨1, 60, [9]⟩, ⟨1, 1000, []⟩]⟩

end SimpiWallet

namespace SimpiWallet

/-! ## Claim C1 -/

/-- Helper: the success condition of `get_cmr` is exactly having a
Simplicity leaf inside a Taproot descriptor. -/
theorem get_cmr_isSome_iff {Pk : Type} (cmrOf : SimPolicy Pk → Cmr)
    (d : Descriptor Pk) :
    (get_cmr cmrOf d).isSome = true ↔
      ∃ tr policy, d = Descriptor.tr tr ∧
        tr.taptree = some (TapTree.simplicityLeaf policy) := by
  cases d with
  | tr tr =>
    cases htt : tr.taptree with
    | none =>
      simp only [get_cmr, htt]
      constructor
      · intro h
        cases h
      · rintro ⟨tr2, policy, heq, htt2⟩
        cases heq
        rw [htt] at htt2
        cases htt2
    | some tree =>
      cases tree with
      | simplicityLeaf policy =>
        simp only [get_cmr, htt]
        constructor
        · intro _
          exact ⟨tr, policy, rfl, htt⟩
        · intro _
          rfl
      | other =>
        simp only [get_cmr, htt]
        constructor
        · intro h
          cases h
        · rintro ⟨tr2, policy, heq, htt2⟩
          cases heq
          rw [htt] at htt2
          cases htt2
  | other =>
    simp only [get_cmr]
    constructor
    · intro h
      cases h
    · rintro ⟨tr2, policy, heq, htt2⟩
      cases heq

/-- C1 (amended): `simplicity_pk pk` is a Taproot descriptor whose internal
key is the fixed unspendable key (not `pk`) and whose tree is a single
Simplicity leaf committing to the key policy for `pk`; `get_cmr` returns
the leaf policy's CMR for exactly the Taproot descriptors carrying a
Simplicity leaf — in particular it returns `some` (not `none`) on keyed
outputs built by `simplicity_pk`. -/
theorem C1_simplicity_pk_get_cmr {Pk : Type} (unspendable pk : Pk)
    (cmrOf : SimPolicy Pk → Cmr) :
    simplicity_pk unspendable pk =
      Descriptor.tr ⟨unspendable, some (TapTree.simplicityLeaf (SimPolicy.key pk))⟩ ∧
    get_cmr cmrOf (simplicity_pk unspendable pk) = some (cmrOf (SimPolicy.key pk)) ∧
    (∀ d : Descriptor Pk, (get_cmr cmrOf d).isSome = true ↔
      ∃ tr policy, d = Descriptor.tr tr ∧
        tr.taptree = some (TapTree.simplicityLeaf policy)) :=
  ⟨rfl, rfl, fun d => get_cmr_isSome_iff cmrOf d⟩

/-- C1 counterexample: as literally stated the claim fails — on the keyed
output `simplicity_pk 100 7` (unspendable key 100, wallet key 7) the
program-root extraction returns `some`, not `none`, and the output is not
the leaf-less Taproot output with internal key 7 that the claim
describes. -/
theorem C1_counterexample :
    get_cmr exCmrOf (simplicity_pk 100 7) ≠ none ∧
      simplicity_pk 100 7 ≠ Descriptor.tr ⟨7, none⟩ := by
  constructor
  · decide
  · decide

/-! ## Claim C5 -/

/-- C5: on a cursor fitting in a u32, `next_index` returns the cursor and
increments it (without wrapping) when bit 31 is clear, and returns the
error carrying the untruncated cursor, leaving the cursor unchanged, when
bit 31 is set. -/
theorem C5_next_index_spec (cursor : Nat) (hlt : cursor < 2 ^ 32) :
    (cursor &&& 2 ^ 31 = 0 →
      next_index cursor = (Except.ok cursor, cursor + 1)) ∧
    (cursor &&& 2 ^ 31 ≠ 0 →
      next_index cursor = (Except.error cursor, cursor)) := by
  constructor
  · intro h
    have hmod : (cursor + 1) % 2 ^ 32 = cursor + 1 := by
      rw [Nat.and_two_pow] at h
      have hb : cursor.testBit 31 = false := by
        rcases Bool.eq_false_or_eq_true (cursor.testBit 31) with hb | hb
        · rw [hb] at h
          norm_num at h
        · exact hb
      rw [Nat.testBit_to_div_mod] at hb
      have hd : cursor / 2 ^ 31 % 2 = 0 := by
        have := of_decide_eq_false hb
        omega
      have h31 : (2 : ℕ) ^ 31 = 2147483648 := by norm_num
      have h32 : (2 : ℕ) ^ 32 = 4294967296 := by norm_num
      rw [h31] at hd
      rw [h32] at hlt ⊢
      omega
    unfold next_index
    rw [if_pos h, hmod]
  · intro h
    unfold next_index
    rw [if_neg h]

/-- C5 witness: cursor 5 advances to 6 returning index 5; the cursor with
bit 31 set reports the error and stays put. -/
theorem C5_next_index_spec_witness :
    next_index 5 = (Except.ok 5, 6) ∧
      next_index (2 ^ 31) = (Except.error (2 ^ 31), 2 ^ 31) :=
  ⟨(C5_next_index_spec 5 (by norm_num)).1 (by decide),
   (C5_next_index_spec (2 ^ 31) (by norm_num)).2 (by decide)⟩

/-! ## Claim C7 -/

/-- Helper: registering the CMR `cmr` makes `contains cmr` true, provided
the library law that an assembly policy's CMR is the committed value. -/
theorem contains_after_push {Pk W : Type} (cmrOf : SimPolicy Pk → Cmr)
    (unspendable : Pk) (A : AssemblySet Pk W) (cmr : Cmr)
    (hasm : cmrOf (SimPolicy.assembly cmr) = cmr) :
    AssemblySet.contains cmrOf
      { A with descriptors := A.descriptors ++ [simplicity_asm unspendable cmr] }
      cmr = true := by
  unfold AssemblySet.contains AssemblySet.cmrs
  simp only [List.filterMap_append, List.any_append]
  have h : List.filterMap (get_cmr cmrOf) [simplicity_asm unspendable cmr] = [cmr] := by
    simp [simplicity_asm, get_cmr, hasm]
  rw [h]
  simp

/-- C7: `insert` returns true exactly when the root was not yet
registered; a duplicate insertion returns false and leaves the registry
unchanged; after inserting, `contains` is true; and a second insertion of
the same root returns false. -/
theorem C7_insert_contains {Pk W : Type} (cmrOf : SimPolicy Pk → Cmr)
    (unspendable : Pk) (A : AssemblySet Pk W) (cmr : Cmr)
    (hasm : cmrOf (SimPolicy.assembly cmr) = cmr) :
    ((A.insert cmrOf unspendable cmr).1 = !(A.contains cmrOf cmr)) ∧
    (A.contains cmrOf cmr = true → (A.insert cmrOf unspendable cmr).2 = A) ∧
    ((A.insert cmrOf unspendable cmr).2.contains cmrOf cmr = true) ∧
    (((A.insert cmrOf unspendable cmr).2.insert cmrOf unspendable cmr).1 = false) := by
  by_cases h : A.contains cmrOf cmr = true
  · refine ⟨?_, ?_, ?_, ?_⟩
    · simp [AssemblySet.insert, h]
    · intro _
      simp [AssemblySet.insert, h]
    · simp [AssemblySet.insert, h]
    · simp [AssemblySet.insert, h]
  · have h2 := contains_after_push cmrOf unspendable A cmr hasm
    refine ⟨?_, ?_, ?_, ?_⟩
    · simp only [AssemblySet.insert]
      rw [if_neg h]
      simp only [Bool.not_eq_true] at h
      rw [h]
      rfl
    · intro hc
      exact absurd hc h
    · simp only [AssemblySet.insert]
      rw [if_neg h]
      exact h2
    · simp only [AssemblySet.insert]
      rw [if_neg h]
      simp only [AssemblySet.insert]
      rw [if_pos h2]

/-- C7 witness: inserting CMR 5 into the empty registry then inserting it
again returns false the second time, and the registry contains 5 after the
first insertion. -/
theorem C7_insert_contains_witness :
    (((⟨[], []⟩ : AssemblySet Nat Nat).insert exCmrOf 100 5).2.insert
        exCmrOf 100 5).1 = false ∧
    ((⟨[], []⟩ : AssemblySet Nat Nat).insert exCmrOf 100 5).2.contains
        exCmrOf 5 = true :=
  ⟨(C7_insert_contains exCmrOf 100 (⟨[], []⟩ : AssemblySet Nat Nat) 5 rfl).2.2.2,
   (C7_insert_contains exCmrOf 100 (⟨[], []⟩ : AssemblySet Nat Nat) 5 rfl).2.2.1⟩

/-! ## Claim C8 -/

/-- Helper: an association-list lookup succeeds exactly when the key is
among the stored keys. -/
theorem assocLookup_isSome_iff {W : Type} (k : Cmr) (l : List (Cmr × W)) :
    (assocLookup k l).isSome = true ↔ k ∈ l.map Prod.fst := by
  induction l with
  | nil =>
    simp [assocLookup]
  | cons kv rest ih =>
    obtain ⟨k0, v0⟩ := kv
    by_cases h : k0 = k
    · subst h
      simp [assocLookup]
    · simp only [assocLookup, if_neg h, List.map_cons, List.mem_cons]
      rw [ih]
      constructor
      · intro hmem
        exact Or.inr hmem
      · intro hmem
        rcases hmem with heq | hmem
        · exact absurd heq.symm h
        · exact hmem

/-- C8: when finalization succeeds, `insert_satisfaction` stores the
finalized witness under the program's CMR and returns the previously
stored witness (some exactly when one existed); when finalization fails it
returns the finalization error and leaves the registry unchanged. -/
theorem C8_insert_satisfaction {Pk W P E : Type} (fin : P → Except E W)
    (wcmr : P → Cmr) (A : AssemblySet Pk W) (program : P) :
    (∀ e, fin program = Except.error e →
      AssemblySet.insert_satisfaction fin wcmr A program = (A, Except.error e)) ∧
    (∀ f, fin program = Except.ok f →
      AssemblySet.insert_satisfaction fin wcmr A program =
        ({ A with satisfactions := assocInsert (wcmr program) f A.satisfactions },
          Except.ok (assocLookup (wcmr program) A.satisfactions))) ∧
    (∀ (k : Cmr) (l : List (Cmr × W)),
      (assocLookup k l).isSome = true ↔ k ∈ l.map Prod.fst) := by
  refine ⟨?_, ?_, fun k l => assocLookup_isSome_iff k l⟩
  · intro e he
    unfold AssemblySet.insert_satisfaction
    rw [he]
  · intro f hf
    unfold AssemblySet.insert_satisfaction
    rw [hf]

/-- C8 witness: finalization succeeding on a registry that already stores
a witness for the same CMR replaces it and returns the old witness. -/
theorem C8_insert_satisfaction_witness :
    AssemblySet.insert_satisfaction
        (fun p : Nat => if p = 0 then Except.error 9 else Except.ok p)
        (fun p => p) (⟨[], [(1, 5)]⟩ : AssemblySet Nat Nat) 1 =
      (⟨[], [(1, 1)]⟩, Except.ok (some 5)) := by
  have h := (C8_insert_satisfaction
      (fun p : Nat => if p = 0 then Except.error 9 else Except.ok p)
      (fun p => p) (⟨[], [(1, 5)]⟩ : AssemblySet Nat Nat) 1).2.1 1 rfl
  rw [h]
  rfl

/-! ## Claim C4 -/

/-- Helper (soundness): whatever keypair the scan returns, its public key
is the lookup target — both success branches of the loop check exactly
that equality. -/
theorem get_keypair_scan_sound {S P : Type} [DecidableEq P] (M : KeyModel S P)
    (derive : Nat → Option S) (key : P) :
    ∀ (l : List Nat) (sk : S), get_keypair_scan M derive key l = some sk →
      M.pubkeyOf sk = key := by
  intro l
  induction l with
  | nil =>
    intro sk h
    cases h
  | cons i rest ih =>
    intro sk h
    unfold get_keypair_scan at h
    cases hd : derive i with
    | none =>
      rw [hd] at h
      cases h
    | some childSk =>
      rw [hd] at h
      dsimp only at h
      by_cases h1 : M.pubkeyOf childSk = key
      · rw [if_pos h1] at h
        cases h
        exact h1
      · rw [if_neg h1] at h
        by_cases h2 : M.pubkeyOf (M.negS childSk) = key
        · rw [if_pos h2] at h
          cases h
          exact h2
        · rw [if_neg h2] at h
          exact ih sk h

/-- Helper (completeness): if every index in the scan list derives, and
some index in the list derives a secret key whose point or negated point
is the target, the scan succeeds. -/
theorem get_keypair_scan_complete {S P : Type} [DecidableEq P] (M : KeyModel S P)
    (derive : Nat → Option S) (key : P) :
    ∀ (l : List Nat),
      (∀ j ∈ l, (derive j).isSome = true) →
      (∃ i ∈ l, ∃ ski, derive i = some ski ∧
        (M.pubkeyOf ski = key ∨ M.pubkeyOf (M.negS ski) = key)) →
      (get_keypair_scan M derive key l).isSome = true := by
  intro l
  induction l with
  | nil =>
    intro _ hex
    rcases hex with ⟨i, hi, _⟩
    cases hi
  | cons j rest ih =>
    intro hder hex
    have hj : (derive j).isSome = true := hder j (List.mem_cons_self j rest)
    obtain ⟨s, hs⟩ := Option.isSome_iff_exists.mp hj
    unfold get_keypair_scan
    rw [hs]
    dsimp only
    by_cases h1 : M.pubkeyOf s = key
    · rw [if_pos h1]
      rfl
    · rw [if_neg h1]
      by_cases h2 : M.pubkeyOf (M.negS s) = key
      · rw [if_pos h2]
        rfl
      · rw [if_neg h2]
        apply ih
        · intro k hk
          exact hder k (List.mem_cons_of_mem j hk)
        · rcases hex with ⟨i, hi, ski, hski, hkey⟩
          rcases List.mem_cons.mp hi with heq | hmem
          · subst heq
            rw [hski] at hs
            cases hs
            rcases hkey with hkey | hkey
            · exact absurd hkey h1
            · exact absurd hkey h2
          · exact ⟨i, hmem, ski, hski, hkey⟩

/-- C4: for a wallet whose derivations all succeed on indices below the
cursor, looking up the even-y-normalized child public key at any index
`i < nextIndex` — that is, a target equal to the child point or to its
negation — returns some keypair whose public key is exactly the target.
The negation law `(-x)G = -(xG)` that the code's comment invokes enters as
the hypothesis `hneg`. -/
theorem C4_get_keypair_finds_normalized_key {S P : Type} [DecidableEq P]
    (M : KeyModel S P) (derive : Nat → Option S) (nextIndex : Nat) (key : P)
    (i : Nat) (hi : i < nextIndex)
    (hderive : ∀ j, j < nextIndex → (derive j).isSome = true)
    (ski : S) (hski : derive i = some ski)
    (htarget : key = M.pubkeyOf ski ∨ key = M.negP (M.pubkeyOf ski))
    (hneg : ∀ sk, M.pubkeyOf (M.negS sk) = M.negP (M.pubkeyOf sk)) :
    ∃ sk, get_keypair M derive nextIndex key = some sk ∧ M.pubkeyOf sk = key := by
  have hcomplete : (get_keypair M derive nextIndex key).isSome = true := by
    apply get_keypair_scan_complete
    · intro j hj
      exact hderive j (List.mem_range.mp hj)
    · refine ⟨i, List.mem_range.mpr hi, ski, hski, ?_⟩
      rcases htarget with h | h
      · exact Or.inl h.symm
      · refine Or.inr ?_
        rw [hneg ski]
        exact h.symm
  obtain ⟨sk, hsk⟩ := Option.isSome_iff_exists.mp hcomplete
  exact ⟨sk, hsk, get_keypair_scan_sound M derive key (List.range nextIndex) sk hsk⟩

/-- C4 witness: in the integer toy model with one derived secret key -5,
looking up the normalized public key 5 (the negated point) succeeds and
returns the keypair for 5, whose public key is the target. -/
theorem C4_get_keypair_finds_normalized_key_witness :
    ∃ sk, get_keypair intKeyModel (fun _ => some (-5 : Int)) 1 (5 : Int) = some sk ∧
      intKeyModel.pubkeyOf sk = 5 :=
  C4_get_keypair_finds_normalized_key intKeyModel (fun _ => some (-5 : Int)) 1 5 0
    (by decide) (fun _ _ => rfl) (-5) rfl (Or.inr (by decide)) (fun _ => rfl)

/-! ## Claims C2 and C10: coin selection -/

/-- Helper: full characterization of the selection loop. The loop takes
some prefix of length `k` of the remaining UTXOs; every shorter prefix
left the accumulator under the target (first-fit), and if even the taken
amount is under the target then the whole list was consumed. -/
theorem selectLoop_spec (target : Nat) :
    ∀ (l sel : List Utxo) (acc : Nat),
      ∃ k, k ≤ l.length ∧
        selectLoop target l sel acc = (sel ++ l.take k, acc + total_amount (l.take k)) ∧
        (∀ j, j < k → acc + total_amount (l.take j) < target) ∧
        (acc + total_amount (l.take k) < target → k = l.length) := by
  intro l
  induction l with
  | nil =>
    intro sel acc
    refine ⟨0, Nat.le_refl 0, ?_, ?_, ?_⟩
    · simp [selectLoop, total_amount]
    · intro j hj
      cases hj
    · intro _
      rfl
  | cons u rest ih =>
    intro sel acc
    by_cases h : target ≤ acc
    · refine ⟨0, Nat.zero_le _, ?_, ?_, ?_⟩
      · simp [selectLoop, h, total_amount]
      · intro j hj
        cases hj
      · intro hlt
        simp [total_amount] at hlt
        omega
    · obtain ⟨k, hk, heq, hlt, hfull⟩ := ih (sel ++ [u]) (acc + u.amount)
      refine ⟨k + 1, by simpa using Nat.succ_le_succ hk, ?_, ?_, ?_⟩
      · rw [List.take_succ_cons]
        show selectLoop target (u :: rest) sel acc = _
        unfold selectLoop
        rw [if_neg h, heq]
        simp only [Prod.mk.injEq]
        constructor
        · simp
        · simp [total_amount]
          omega
      · intro j hj
        cases j with
        | zero =>
          simp [total_amount]
          omega
        | succ j =>
          have hj2 : j < k := Nat.lt_of_succ_lt_succ hj
          have := hlt j hj2
          rw [List.take_succ_cons]
          simp only [total_amount, List.map_cons, List.sum_cons]
          simp only [total_amount] at this
          omega
      · intro hunder
        rw [List.take_succ_cons] at hunder
        simp only [total_amount, List.map_cons, List.sum_cons] at hunder
        have : acc + u.amount + total_amount (rest.take k) < target := by
          simp only [total_amount]
          omega
        rw [hfull this]
        rfl

/-- Helper: the total amount of a prefix never exceeds the total amount. -/
theorem total_amount_take_le (s : UtxoSet) (k : Nat) :
    total_amount (s.take k) ≤ total_amount s := by
  conv_rhs => rw [← List.take_append_drop k s]
  simp only [total_amount, List.map_append, List.sum_append]
  exact Nat.le_add_right _ _

/-- C2: coin selection returns none exactly when the whole list's total is
below the target; on success it has selected a first-fit prefix — the
total reached the target and every shorter prefix fell short; and on the
spec's test vector with amounts 30, 50, 20 it selects the first two UTXOs
with total 80 for target 60, and reports insufficiency for target 101. -/
theorem C2_select_coins_first_fit (s : UtxoSet) (target : Nat) :
    (select_coins s target = none ↔ total_amount s < target) ∧
    (∀ sel tot, select_coins s target = some (sel, tot) →
      target ≤ tot ∧
        ∃ k, sel = s.take k ∧ ∀ j, j < k → total_amount (s.take j) < target) ∧
    select_coins exUtxos 60 = some ([⟨30, 0⟩, ⟨50, 1⟩], 80) ∧
    select_coins exUtxos 101 = none := by
  obtain ⟨k, hk, heq, hlt, hfull⟩ := selectLoop_spec target s [] 0
  simp only [Nat.zero_add, List.nil_append] at heq
  refine ⟨?_, ?_, by decide, by decide⟩
  · constructor
    · intro hnone
      unfold select_coins at hnone
      rw [heq] at hnone
      by_cases hlow : total_amount (s.take k) < target
      · have hkfull : k = s.length := hfull (by omega)
        rw [hkfull, List.take_length] at hlow
        exact hlow
      · rw [if_neg (by omega)] at hnone
        cases hnone
    · intro hlow
      unfold select_coins
      rw [heq]
      have : total_amount (s.take k) < target :=
        Nat.lt_of_le_of_lt (total_amount_take_le s k) hlow
      rw [if_pos (by omega)]
  · intro sel tot hsome
    unfold select_coins at hsome
    rw [heq] at hsome
    by_cases hlow : total_amount (s.take k) < target
    · rw [if_pos (by omega)] at hsome
      cases hsome
    · rw [if_neg (by omega)] at hsome
      have hsel : sel = s.take k ∧ tot = total_amount (s.take k) := by
        cases hsome
        exact ⟨rfl, rfl⟩
      refine ⟨by omega, k, hsel.1, ?_⟩
      intro j hj
      have := hlt j hj
      omega

/-- C2 witness: applying the first-fit characterization to the spec's test
vector at target 60 — the total reached 80 and the selection is a prefix
each of whose proper prefixes fell short of 60. -/
theorem C2_select_coins_first_fit_witness :
    60 ≤ 80 ∧
      ∃ k, ([⟨30, 0⟩, ⟨50, 1⟩] : UtxoSet) = exUtxos.take k ∧
        ∀ j, j < k → total_amount (exUtxos.take j) < 60 :=
  (C2_select_coins_first_fit exUtxos 60).2.1 [⟨30, 0⟩, ⟨50, 1⟩] 80 (by decide)

/-- C10: on success the selection is a prefix of the presented list and
the returned total is exactly the sum of the selected amounts; and for
target zero the selection is always empty with total zero. -/
theorem C10_select_coins_invariants (s : UtxoSet) (target : Nat) :
    (∀ sel tot, select_coins s target = some (sel, tot) →
      (∃ k, sel = s.take k) ∧ tot = total_amount sel) ∧
    select_coins s 0 = some ([], 0) := by
  constructor
  · intro sel tot hsome
    obtain ⟨k, hk, heq, hlt, hfull⟩ := selectLoop_spec target s [] 0
    simp only [Nat.zero_add, List.nil_append] at heq
    unfold select_coins at hsome
    rw [heq] at hsome
    by_cases hlow : total_amount (s.take k) < target
    · rw [if_pos (by omega)] at hsome
      cases hsome
    · rw [if_neg (by omega)] at hsome
      cases hsome
      exact ⟨⟨k, rfl⟩, rfl⟩
  · obtain ⟨k, hk, heq, hlt, hfull⟩ := selectLoop_spec 0 s [] 0
    simp only [Nat.zero_add, List.nil_append] at heq
    have hk0 : k = 0 := by
      by_contra hne
      have := hlt 0 (Nat.pos_of_ne_zero hne)
      simp [total_amount] at this
    rw [hk0] at heq
    simp only [List.take_zero] at heq
    unfold select_coins
    rw [heq]
    rfl

/-- C10 witness: on the test vector at target 60, the selection is a
prefix and its total is the exact sum; at target 0 the selection is empty
with total 0. -/
theorem C10_select_coins_invariants_witness :
    ((∃ k, ([⟨30, 0⟩, ⟨50, 1⟩] : UtxoSet) = exUtxos.take k) ∧
      80 = total_amount [⟨30, 0⟩, ⟨50, 1⟩]) ∧
    select_coins exUtxos 0 = some ([], 0) :=
  ⟨(C10_select_coins_invariants exUtxos 60).1 [⟨30, 0⟩, ⟨50, 1⟩] 80 (by decide),
   (C10_select_coins_invariants exUtxos 0).2⟩

/-! ## Claims C3 and C9: signing -/

/-- Helper: material gathering succeeds exactly when every enumerated
input extracts taproot info and satisfies. -/
theorem gatherWitnesses_isSome_iff {Pk : Type} (cmrOf : SimPolicy Pk → Cmr)
    (derive : Nat → Descriptor Pk)
    (satisfy : Nat → Descriptor Pk → Option ScriptWitness) :
    ∀ L : List (Nat × Nat),
      (gatherWitnesses cmrOf derive satisfy L).isSome = true ↔
        ∀ p ∈ L, inputOk cmrOf derive satisfy p := by
  intro L
  induction L with
  | nil =>
    simp [gatherWitnesses]
  | cons p rest ih =>
    obtain ⟨txinIdx, descIdx⟩ := p
    unfold gatherWitnesses
    cases htp : get_taproot_info cmrOf (derive descIdx) with
    | none =>
      simp only [Option.isSome_none]
      constructor
      · intro h
        cases h
      · intro h
        have := (h (txinIdx, descIdx) (List.mem_cons_self _ _)).1
        rw [htp] at this
        cases this
    | some c =>
      cases hsat : satisfy txinIdx (derive descIdx) with
      | none =>
        simp only [Option.isSome_none]
        constructor
        · intro h
          cases h
        · intro h
          have := (h (txinIdx, descIdx) (List.mem_cons_self _ _)).2
          rw [hsat] at this
          cases this
      | some w =>
        cases hrest : gatherWitnesses cmrOf derive satisfy rest with
        | none =>
          simp only [Option.isSome_none]
          constructor
          · intro h
            cases h
          · intro h
            have : ∀ q ∈ rest, inputOk cmrOf derive satisfy q := by
              intro q hq
              exact h q (List.mem_cons_of_mem _ hq)
            have h2 := (ih).mpr this
            rw [hrest] at h2
            cases h2
        | some ws =>
          simp only [Option.isSome_some, true_iff]
          intro q hq
          rcases List.mem_cons.mp hq with heq | hmem
          · subst heq
            constructor
            · rw [htp]
              rfl
            · rw [hsat]
              rfl
          · have h2 : (gatherWitnesses cmrOf derive satisfy rest).isSome = true := by
              rw [hrest]
              rfl
            exact (ih).mp h2 q hmem

/-- Helper: material gathering produces one witness per enumerated
input. -/
theorem gatherWitnesses_length {Pk : Type} (cmrOf : SimPolicy Pk → Cmr)
    (derive : Nat → Descriptor Pk)
    (satisfy : Nat → Descriptor Pk → Option ScriptWitness) :
    ∀ (L : List (Nat × Nat)) (ws : List ScriptWitness),
      gatherWitnesses cmrOf derive satisfy L = some ws → ws.length = L.length := by
  intro L
  induction L with
  | nil =>
    intro ws h
    cases h
    rfl
  | cons p rest ih =>
    obtain ⟨txinIdx, descIdx⟩ := p
    intro ws h
    unfold gatherWitnesses at h
    cases htp : get_taproot_info cmrOf (derive descIdx) with
    | none =>
      rw [htp] at h
      cases h
    | some c =>
      rw [htp] at h
      cases hsat : satisfy txinIdx (derive descIdx) with
      | none =>
        rw [hsat] at h
        cases h
      | some w =>
        rw [hsat] at h
        cases hrest : gatherWitnesses cmrOf derive satisfy rest with
        | none =>
          rw [hrest] at h
          cases h
        | some ws0 =>
          rw [hrest] at h
          cases h
          simp [ih ws0 hrest]

/-- Helper: attaching witnesses never shortens the input list when there
are at most as many witnesses as inputs. -/
theorem setWitnesses_length :
    ∀ (ins : List TxIn) (ws : List ScriptWitness), ws.length ≤ ins.length →
      (setWitnesses ins ws).length = ins.length := by
  intro ins
  induction ins with
  | nil =>
    intro ws hw
    cases ws with
    | nil => rfl
    | cons w ws =>
      cases hw
  | cons i rest ih =>
    intro ws hw
    cases ws with
    | nil => rfl
    | cons w ws =>
      show (setWitnesses (i :: rest) (w :: ws)).length = _
      unfold setWitnesses
      simp only [List.length_cons]
      rw [ih ws (Nat.le_of_succ_le_succ hw)]

/-- Helper: attaching witnesses preserves every input field that the
witness update does not touch, position by position. -/
theorem setWitnesses_map_field {α : Type} (f : TxIn → α)
    (hf : ∀ (t : TxIn) (w : ScriptWitness), f { t with witness := w } = f t) :
    ∀ (ins : List TxIn) (ws : List ScriptWitness) (i : Nat),
      ((setWitnesses ins ws)[i]?).map f = (ins[i]?).map f := by
  intro ins
  induction ins with
  | nil =>
    intro ws i
    cases ws with
    | nil => rfl
    | cons w ws => rfl
  | cons t rest ih =>
    intro ws i
    cases ws with
    | nil => rfl
    | cons w ws =>
      show ((setWitnesses (t :: rest) (w :: ws))[i]?).map f = _
      unfold setWitnesses
      cases i with
      | zero =>
        simp [hf]
      | succ i =>
        simp only [List.getElem?_cons_succ]
        exact ih ws i

/-- C3: signing succeeds exactly when, for every input in order, the
derived child descriptor yields its taproot info and the satisfier
produces the required signature/witness material; if any input's material
is missing the whole operation returns none, so no partially signed
transaction is ever produced. -/
theorem C3_sign_all_or_nothing {Pk : Type} (cmrOf : SimPolicy Pk → Cmr)
    (derive : Nat → Descriptor Pk)
    (satisfy : Nat → Descriptor Pk → Option ScriptWitness)
    (b : TransactionBuilder) :
    (b.sign cmrOf derive satisfy).isSome = true ↔
      ∀ p ∈ b.descIndices.enum, inputOk cmrOf derive satisfy p := by
  unfold TransactionBuilder.sign
  cases hg : gatherWitnesses cmrOf derive satisfy b.descIndices.enum with
  | none =>
    simp only [Option.isSome_none]
    rw [← gatherWitnesses_isSome_iff cmrOf derive satisfy b.descIndices.enum, hg]
    simp
  | some ws =>
    simp only [Option.isSome_some, true_iff]
    rw [← gatherWitnesses_isSome_iff cmrOf derive satisfy b.descIndices.enum, hg]
    rfl

/-- C3 witness: the example two-input builder signs successfully because
every input's taproot info and satisfaction are available. -/
theorem C3_sign_all_or_nothing_witness :
    (exBuilder.sign exCmrOf exDerive exSatisfy).isSome = true :=
  (C3_sign_all_or_nothing exCmrOf exDerive exSatisfy exBuilder).mpr (by decide)

/-- C9: a successfully signed transaction differs from the unsigned
transaction assembled by `to_transaction` only in the per-input witness
fields: version, locktime and outputs are identical, the input count is
unchanged, and every input keeps its outpoint, script_sig and sequence. -/
theorem C9_sign_frame {Pk : Type} (cmrOf : SimPolicy Pk → Cmr)
    (derive : Nat → Descriptor Pk)
    (satisfy : Nat → Descriptor Pk → Option ScriptWitness)
    (b : TransactionBuilder) (tx : Transaction)
    (hlen : b.descIndices.length ≤ b.inputs.length)
    (hsign : b.sign cmrOf derive satisfy = some tx) :
    tx.version = b.to_transaction.version ∧
    tx.lockTime = b.to_transaction.lockTime ∧
    tx.output = b.to_transaction.output ∧
    tx.input.length = b.to_transaction.input.length ∧
    (∀ i : Nat, (tx.input[i]?).map TxIn.previousOutput =
      (b.to_transaction.input[i]?).map TxIn.previousOutput) ∧
    (∀ i : Nat, (tx.input[i]?).map TxIn.scriptSig =
      (b.to_transaction.input[i]?).map TxIn.scriptSig) ∧
    (∀ i : Nat, (tx.input[i]?).map TxIn.sequence =
      (b.to_transaction.input[i]?).map TxIn.sequence) := by
  unfold TransactionBuilder.sign at hsign
  cases hg : gatherWitnesses cmrOf derive satisfy b.descIndices.enum with
  | none =>
    rw [hg] at hsign
    cases hsign
  | some ws =>
    rw [hg] at hsign
    cases hsign
    have hws : ws.length ≤ b.inputs.length := by
      rw [gatherWitnesses_length cmrOf derive satisfy _ ws hg]
      simpa using hlen
    refine ⟨rfl, rfl, rfl, ?_, ?_, ?_, ?_⟩
    · exact setWitnesses_length b.inputs ws hws
    · exact fun i => setWitnesses_map_field TxIn.previousOutput
        (fun _ _ => rfl) b.inputs ws i
    · exact fun i => setWitnesses_map_field TxIn.scriptSig
        (fun _ _ => rfl) b.inputs ws i
    · exact fun i => setWitnesses_map_field TxIn.sequence
        (fun _ _ => rfl) b.inputs ws i

/-- C9 witness: the example builder signs to the concrete transaction
`exSignedTx`, which keeps the unsigned transaction's outputs and per-input
outpoints. -/
theorem C9_sign_frame_witness :
    exSignedTx.output = exBuilder.to_transaction.output ∧
      (∀ i : Nat, (exSignedTx.input[i]?).map TxIn.previousOutput =
        (exBuilder.to_transaction.input[i]?).map TxIn.previousOutput) :=
  ⟨(C9_sign_frame exCmrOf exDerive exSatisfy exBuilder exSignedTx (by decide)
      (by decide)).2.2.1,
   (C9_sign_frame exCmrOf exDerive exSatisfy exBuilder exSignedTx (by decide)
      (by decide)).2.2.2.2.1⟩

/-! ## Claim C6: witness text round-trip -/

/-- Helper: decoding a base64 alphabet character recovers its sextet. -/
theorem charToSextet_b64Char : ∀ n, n < 64 → charToSextet (b64Char n) = some n := by
  decide

/-- Helper: no alphabet character is the padding character. -/
theorem b64Char_ne_pad : ∀ n, n < 64 → b64Char n ≠ '=' := by
  decide

/-- Helper: base64 decoding inverts base64 encoding on byte strings. -/
theorem b64DecodeGroups_b64EncodeChunks :
    ∀ bs : List Nat, (∀ x ∈ bs, x < 256) →
      b64DecodeGroups (b64EncodeChunks bs) = some bs := by
  intro bs
  induction bs using b64EncodeChunks.induct with
  | case1 =>
    intro _
    rfl
  | case2 a =>
    intro hb
    have ha : a < 256 := hb a (by simp)
    have h1 : charToSextet (b64Char (a / 4)) = some (a / 4) :=
      charToSextet_b64Char _ (by omega)
    have h2 : charToSextet (b64Char (a % 4 * 16)) = some (a % 4 * 16) :=
      charToSextet_b64Char _ (by omega)
    have hmod : a % 4 * 16 % 16 = 0 := by omega
    simp [b64EncodeChunks, b64DecodeGroups, h1, h2, hmod]
    all_goals omega
  | case3 a b =>
    intro hb
    have ha : a < 256 := hb a (by simp)
    have hbb : b < 256 := hb b (by simp)
    have h1 : charToSextet (b64Char (a / 4)) = some (a / 4) :=
      charToSextet_b64Char _ (by omega)
    have h2 : charToSextet (b64Char (a % 4 * 16 + b / 16)) = some (a % 4 * 16 + b / 16) :=
      charToSextet_b64Char _ (by omega)
    have h3 : charToSextet (b64Char (b % 16 * 4)) = some (b % 16 * 4) :=
      charToSextet_b64Char _ (by omega)
    have hne : b64Char (b % 16 * 4) ≠ '=' := b64Char_ne_pad _ (by omega)
    have hmod : b % 16 * 4 % 4 = 0 := by omega
    simp [b64EncodeChunks, b64DecodeGroups, h1, h2, h3, hne, hmod]
    all_goals omega
  | case4 a b c rest ih =>
    intro hb
    have ha : a < 256 := hb a (by simp)
    have hbb : b < 256 := hb b (by simp)
    have hc : c < 256 := hb c (by simp)
    have hrest : ∀ x ∈ rest, x < 256 := by
      intro x hx
      exact hb x (by simp [hx])
    have h1 : charToSextet (b64Char (a / 4)) = some (a / 4) :=
      charToSextet_b64Char _ (by omega)
    have h2 : charToSextet (b64Char (a % 4 * 16 + b / 16)) = some (a % 4 * 16 + b / 16) :=
      charToSextet_b64Char _ (by omega)
    have h3 : charToSextet (b64Char (b % 16 * 4 + c / 64)) = some (b % 16 * 4 + c / 64) :=
      charToSextet_b64Char _ (by omega)
    have h4 : charToSextet (b64Char (c % 64)) = some (c % 64) :=
      charToSextet_b64Char _ (by omega)
    have hne : b64Char (c % 64) ≠ '=' := b64Char_ne_pad _ (by omega)
    simp [b64EncodeChunks, b64DecodeGroups, h1, h2, h3, h4, hne, ih hrest]
    all_goals omega

/-- C6: decoding the text encoding of a finalized witness yields the
witness back, given the external binary codec's round-trip contract
(`decode (encode_to_vec w) = ok w`, with byte output); and decoding a
string that is not valid base64, or whose decoded bytes the binary codec
rejects, returns the corresponding parse error (the embedding is total, so
no input can cause anything but an `ok` or `error` result). -/
theorem C6_witness_text_roundtrip {W E : Type} (C : BinCodec W E) (w : W)
    (hbytes : ∀ x ∈ C.encode_to_vec w, x < 256)
    (hcodec : C.decode (C.encode_to_vec w) = Except.ok w) :
    witness_from_text C (witness_to_text C w) = Except.ok w ∧
    (∀ s, b64DecodeGroups s = none →
      witness_from_text C s = Except.error ParseError.couldNotParse) ∧
    (∀ s bytes e, b64DecodeGroups s = some bytes →
      C.decode bytes = Except.error e →
      witness_from_text C s = Except.error (ParseError.simplicity e)) := by
  refine ⟨?_, ?_, ?_⟩
  · unfold witness_from_text witness_to_text
    rw [b64DecodeGroups_b64EncodeChunks _ hbytes]
    dsimp only
    rw [hcodec]
  · intro s hs
    unfold witness_from_text
    rw [hs]
  · intro s bytes e hs he
    unfold witness_from_text
    rw [hs]
    dsimp only
    rw [he]

/-- C6 witness: the toy one-byte codec's program 7 round-trips through the
text encoding. -/
theorem C6_witness_text_roundtrip_witness :
    witness_from_text byteCodec (witness_to_text byteCodec 7) = Except.ok 7 :=
  (C6_witness_text_roundtrip byteCodec 7 (by decide) rfl).1

end SimpiWallet
